import Mathlib

/-!
Verification of the background job execution and tracking subsystem of
`sysadmin/c-mgmt.py` (functions `shell`, `_pump`, `_pick_root`, and the
module-level root/jobs-directory initialization).

The Python code is shallowly embedded: every function below is a direct
translation of the corresponding lines of the source.  Effectful code is
modelled as a pure function that returns, next to its result, the ordered
list of observable events (directory creation, file writes, process spawn,
thread start), so that ordering and at-most-once properties can be stated
and proved.  Machine-level behaviour that the source delegates to the
platform (decimal rendering of integers in an f-string, the exit code the
POSIX shell reports for a missing executable) is modelled explicitly and
documented at the definition site.
-/

namespace CMgmt

/-- Decimal digits `0`-`9` rendered as characters, accumulator-style helper.
Embeds the decimal rendering that Python's f-string applies to a
non-negative `int` (source line 129: `f"{int(time.time()*1000)}-{os.getpid()}"`).
The first argument is fuel; `natToDec` supplies `n + 1`, which always
suffices since the rendered value shrinks by a factor of ten each step. -/
def natToDecAux : Nat → Nat → List Char → List Char
  | 0, _, acc => acc
  | fuel + 1, n, acc =>
    if n < 10 then Nat.digitChar n :: acc
    else natToDecAux fuel (n / 10) (Nat.digitChar (n % 10) :: acc)

/-- Decimal rendering of a natural number, most significant digit first. -/
def natToDec (n : Nat) : List Char := natToDecAux (n + 1) n []

/-- Job id generation, source line 129:
`job_id = f"{int(time.time()*1000)}-{os.getpid()}"`.
`timeMs` is the millisecond-resolution timestamp observed at the call,
`pid` the identifier of the running process. -/
def jobId (timeMs pid : Nat) : String := ⟨natToDec timeMs ++ '-' :: natToDec pid⟩

/-- Job ids generated by a sequence of asynchronous submissions within one
run of the process: the pid is fixed for the whole run, and `times` lists
the millisecond timestamps observed at each submission, in order. -/
def runJobIds (pid : Nat) (times : List Nat) : List String :=
  times.map fun t => jobId t pid

/-- Content persisted to `name.txt`, source line 132:
`(jdir / "name.txt").write_text(job_name or cmd)`.  Python's `or` takes the
command string both when `job_name` is `None` and when it is the empty
string (falsy). -/
def nameContent (jobName : Option String) (cmd : String) : String :=
  match jobName with
  | none => cmd
  | some s => if s = "" then cmd else s

/-- Interpolation of an `Optional[str]` into an f-string, as on source line
139 (`f"== START {job_name}\n"`): Python renders `None` as the literal text
`None`. -/
def pyStr : Option String → String
  | none => "None"
  | some s => s

/-- First line written to `log.txt`, source line 139. -/
def startLine (jobName : Option String) : String := "== START " ++ pyStr jobName ++ "\n"

/-- Terminal marker appended to `log.txt`, source line 144:
`lf.write(f"== END exit {proc.returncode}\n")`. -/
def endLine (code : Int) : String := "== END exit " ++ toString code ++ "\n"

/-- Content of `status.txt`, source line 145:
`status_path.write_text(f"exit {proc.returncode}")`. -/
def statusContent (code : Int) : String := "exit " ++ toString code

/-- Concatenation of a list of strings (used to reconstruct file contents
from the sequence of write events). -/
def strConcat : List String → String
  | [] => ""
  | s :: rest => s ++ strConcat rest

/-- Observable events of the job subsystem: directory creation, file
writes, process spawn and wait, thread start.  Each constructor records
the data the source call carries. -/
inductive Event where
  | mkdirJobDir : String → Event
  | writeName : String → String → Event
  | spawn : String → Event
  | startThread : Event
  | procWait : Event
  | logOpen : Event
  | logWrite : String → Event
  | logClose : Event
  | writeStatus : String → Event
deriving DecidableEq

/-- Recognizer for status-file writes. -/
def isStatusWrite : Event → Bool
  | .writeStatus _ => true
  | _ => false

/-- Recognizer for every event that touches the job store on disk
(directory creation or any job-file operation). -/
def isJobFileOp : Event → Bool
  | .mkdirJobDir _ => true
  | .writeName _ _ => true
  | .logOpen => true
  | .logWrite _ => true
  | .logClose => true
  | .writeStatus _ => true
  | _ => false

/-- Sequential attempt of the log writes of `_pump`.  Each `lf.write` call
may raise an I/O error; `failAt = some k` means the `(k+1)`-st write
raises (counting from the first line of the given list), `none` means all
writes succeed.  Returns the events of the writes that completed and
whether the whole list was written without an exception. -/
def attemptWrites : List String → Option Nat → List Event × Bool
  | [], _ => ([], true)
  | _ :: _, some 0 => ([], false)
  | w :: ws, some (k + 1) =>
    let r := attemptWrites ws (some k)
    (Event.logWrite w :: r.1, r.2)
  | w :: ws, none =>
    let r := attemptWrites ws none
    (Event.logWrite w :: r.1, r.2)

/-- The background task `_pump`, source lines 137-145, as the ordered list
of events it performs.  `lines` are the lines read from the merged
stdout/stderr stream of the process, `code` its exit code, `failAt` the
position of a failing log write (if any).  The `with open(...)` block
closes the log file even when a write raises, but an exception propagates
out of `_pump` and kills the daemon thread, so the trailing
`status_path.write_text(...)` runs only when every log write succeeded. -/
def pump (jobName : Option String) (lines : List String) (code : Int)
    (failAt : Option Nat) : List Event :=
  let ws := startLine jobName :: lines
  let r1 := attemptWrites ws failAt
  if r1.2 then
    let r2 := attemptWrites [endLine code] (failAt.map fun k => k - ws.length)
    if r2.2 then
      Event.logOpen :: r1.1 ++ Event.procWait :: r2.1 ++
        [Event.logClose, Event.writeStatus (statusContent code)]
    else
      Event.logOpen :: r1.1 ++ Event.procWait :: r2.1 ++ [Event.logClose]
  else
    Event.logOpen :: r1.1 ++ [Event.logClose]

/-- The complete, exception-free trace of `_pump`: header and stream lines
written, process waited for, terminal marker written, log closed, status
persisted last. -/
def fullTrace (jobName : Option String) (lines : List String) (code : Int) : List Event :=
  Event.logOpen :: (startLine jobName :: lines).map Event.logWrite ++
    Event.procWait :: Event.logWrite (endLine code) ::
      [Event.logClose, Event.writeStatus (statusContent code)]

/-- Payloads of the log writes occurring in a trace, in order. -/
def logWritesOf : List Event → List String
  | [] => []
  | Event.logWrite s :: tr => s :: logWritesOf tr
  | _ :: tr => logWritesOf tr

/-- Content of `log.txt` after the trace ran (log writes concatenated). -/
def logContentOf (tr : List Event) : String := strConcat (logWritesOf tr)

/-- Payloads of the status-file writes occurring in a trace, in order. -/
def statusWritesOf : List Event → List String
  | [] => []
  | Event.writeStatus s :: tr => s :: statusWritesOf tr
  | _ :: tr => statusWritesOf tr

/-- Result of `shell`: the job id (background path, source line 148) or
the exit code of the completed process (synchronous path, line 150). -/
inductive ShellResult where
  | jobid : String → ShellResult
  | code : Int → ShellResult
deriving DecidableEq

/-- The caller-side behaviour of `shell` (source lines 126-150): result
value together with the events the calling thread performs before
returning.  `timeMs` and `pid` are the platform clock and pid observed at
the call; `exitCode` is the exit code the spawned process eventually
reports (used directly by the synchronous branch, which waits for it).
The events of `_pump` are not part of this trace: they run on the daemon
thread started by `threading.Thread(...).start()` and are modelled by
`pump`. -/
def shell (cmd : String) (background : Bool) (jobName : Option String)
    (timeMs pid : Nat) (exitCode : Int) : ShellResult × List Event :=
  if background then
    let jid := jobId timeMs pid
    (ShellResult.jobid jid,
      [Event.mkdirJobDir jid, Event.writeName jid (nameContent jobName cmd),
        Event.spawn cmd, Event.startThread])
  else
    (ShellResult.code exitCode, [Event.spawn cmd, Event.procWait])

/-- Exit code reported by the POSIX shell when the command named in
`subprocess.Popen(cmd, shell=True, ...)` (source line 135) does not exist:
the shell itself spawns successfully and exits with the conventional code
127 (126 for a found but non-executable file).  This models platform
behaviour the source delegates to `/bin/sh`, not repository code. -/
def shNotFoundExit : Int := 127

/-- Predicate from the spec's own words for claim C3: a reserved sentinel
exit code, "e.g. a reserved negative/sentinel value", must lie outside the
range an ordinary process can exit with (the POSIX wait status range
0-255). -/
def isReservedSentinel (c : Int) : Bool := decide (c < 0 ∨ 255 < c)

/-- Root directory selection `_pick_root`, source lines 43-57.  `canCreate
p` models whether `Path(p).mkdir(parents=True, exist_ok=True)` succeeds.
The environment-override branch and the final fallback perform `mkdir`
outside any `try`, so their failure propagates (`Except.error`); only the
two preferred candidates fall through on failure. -/
def pickRoot (env : Option String) (cwd : String) (canCreate : String → Bool) :
    Except String String :=
  match env with
  | some e => if canCreate e then .ok e else .error e
  | none =>
    if canCreate "/mnt/data/cmgmt" then .ok "/mnt/data/cmgmt"
    else if canCreate "/tmp/cmgmt" then .ok "/tmp/cmgmt"
    else
      let p := cwd ++ "/cmgmt_data"
      if canCreate p then .ok p else .error p

/-- Module-level initialization, source lines 59-61: `ROOT = _pick_root()`,
`JOBS_DIR = ROOT / "jobs"`, `JOBS_DIR.mkdir(parents=True, exist_ok=True)`.
Returns the resolved root and jobs directory when every creation
succeeds. -/
def moduleInit (env : Option String) (cwd : String) (canCreate : String → Bool) :
    Except String (String × String) :=
  match pickRoot env cwd canCreate with
  | .error e => .error e
  | .ok root =>
    let jobs := root ++ "/jobs"
    if canCreate jobs then .ok (root, jobs) else .error jobs

/-- The candidate order stated by the spec for claim C7 (spec words, for
comparison with `pickRoot`): the environment override first, then the
fixed preferred locations, then the fallback under the current working
directory; the chosen root is the first candidate that can be created. -/
def claimedRootOrder (env : Option String) (cwd : String) : List String :=
  env.toList ++ ["/mnt/data/cmgmt", "/tmp/cmgmt", cwd ++ "/cmgmt_data"]

/-- The root the spec's words for claim C7 designate: the first candidate
in `claimedRootOrder` that can be created, if any. -/
def specRootChoice (env : Option String) (cwd : String) (canCreate : String → Bool) :
    Option String :=
  (claimedRootOrder env cwd).find? canCreate

/-! Helper lemmas about the decimal rendering used in job ids. -/

theorem natToDecAux_acc (fuel : Nat) :
    ∀ n acc, natToDecAux fuel n acc = natToDecAux fuel n [] ++ acc := by
  induction fuel with
  | zero => intro n acc; simp [natToDecAux]
  | succ f ih =>
    intro n acc
    by_cases h : n < 10
    · simp [natToDecAux, h]
    · simp only [natToDecAux, if_neg h]
      rw [ih (n / 10) (Nat.digitChar (n % 10) :: acc),
        ih (n / 10) [Nat.digitChar (n % 10)]]
      simp

theorem natToDecAux_fuel (n : Nat) :
    ∀ f1 f2, n < f1 → n < f2 → natToDecAux f1 n [] = natToDecAux f2 n [] := by
  induction n using Nat.strong_induction_on with
  | _ n ih =>
    intro f1 f2 h1 h2
    obtain ⟨g1, rfl⟩ : ∃ g, f1 = g + 1 := ⟨f1 - 1, by omega⟩
    obtain ⟨g2, rfl⟩ : ∃ g, f2 = g + 1 := ⟨f2 - 1, by omega⟩
    by_cases h : n < 10
    · simp [natToDecAux, h]
    · simp only [natToDecAux, if_neg h]
      rw [natToDecAux_acc, natToDecAux_acc g2]
      have hd : n / 10 < n := Nat.div_lt_self (by omega) (by omega)
      rw [ih (n / 10) hd g1 g2 (by omega) (by omega)]

theorem natToDec_eq (n : Nat) :
    natToDec n =
      if n < 10 then [Nat.digitChar n]
      else natToDec (n / 10) ++ [Nat.digitChar (n % 10)] := by
  by_cases h : n < 10
  · simp [natToDec, natToDecAux, h]
  · rw [if_neg h]
    show natToDecAux (n + 1) n [] = natToDec (n / 10) ++ [Nat.digitChar (n % 10)]
    rw [show natToDecAux (n + 1) n [] = natToDecAux n (n / 10) [Nat.digitChar (n % 10)] from
      by simp [natToDecAux, h]]
    rw [natToDecAux_acc]
    have hd : n / 10 < n := Nat.div_lt_self (by omega) (by omega)
    rw [natToDecAux_fuel (n / 10) n (n / 10 + 1) (by omega) (by omega)]
    rfl

theorem natToDec_ne_nil (n : Nat) : natToDec n ≠ [] := by
  rw [natToDec_eq]
  by_cases h : n < 10 <;> simp [h]

theorem digitChar_inj_lt :
    ∀ m < 10, ∀ n < 10, Nat.digitChar m = Nat.digitChar n → m = n := by decide

theorem natToDec_inj (m : Nat) : ∀ n, natToDec m = natToDec n → m = n := by
  induction m using Nat.strong_induction_on with
  | _ m ih =>
    intro n h
    rw [natToDec_eq m, natToDec_eq n] at h
    by_cases hm : m < 10 <;> by_cases hn : n < 10
    · simp only [if_pos hm, if_pos hn, List.cons.injEq, and_true] at h
      exact digitChar_inj_lt m hm n hn h
    · simp only [if_pos hm, if_neg hn] at h
      have hlen := congrArg List.length h
      simp only [List.length_cons, List.length_append, List.length_nil] at hlen
      exact absurd (List.eq_nil_of_length_eq_zero (by omega)) (natToDec_ne_nil (n / 10))
    · simp only [if_neg hm, if_pos hn] at h
      have hlen := congrArg List.length h
      simp only [List.length_cons, List.length_append, List.length_nil] at hlen
      exact absurd (List.eq_nil_of_length_eq_zero (by omega)) (natToDec_ne_nil (m / 10))
    · simp only [if_neg hm, if_neg hn] at h
      have h2 := List.concat_inj.mp (by simpa [List.concat_eq_append] using h)
      have hdiv : m / 10 = n / 10 :=
        ih (m / 10) (Nat.div_lt_self (by omega) (by omega)) (n / 10) h2.1
      have hmod : m % 10 = n % 10 :=
        digitChar_inj_lt (m % 10) (Nat.mod_lt _ (by omega)) (n % 10)
          (Nat.mod_lt _ (by omega)) h2.2
      omega

theorem jobId_inj_left (p : Nat) : Function.Injective fun t => jobId t p := by
  intro t1 t2 h
  have hdata : natToDec t1 ++ '-' :: natToDec p = natToDec t2 ++ '-' :: natToDec p := by
    have := congrArg String.data h
    simpa [jobId] using this
  exact natToDec_inj t1 t2 (List.append_cancel_right hdata)

/-! Claim C1. -/

/-- Claim C1 is refuted on the code: two distinct asynchronous submissions
within the same run (fixed pid 42) falling in the same millisecond (both
observe timestamp 1000) receive the SAME job id, so the ids of the run are
not pairwise distinct. -/
theorem c1_counterexample : ¬ (runJobIds 42 [1000, 1000]).Nodup := by
  intro h
  simp [runJobIds] at h

/-- Claim C1 (amended): within a single run of the process (fixed pid),
the job ids of a sequence of asynchronous submissions are pairwise
distinct provided the submissions observe pairwise-distinct millisecond
timestamps; the pid component cannot distinguish two submissions of the
same run, so two submissions within the same millisecond collide. -/
theorem c1_distinct_ms_distinct_ids (pid : Nat) (times : List Nat)
    (h : times.Nodup) : (runJobIds pid times).Nodup :=
  h.map (jobId_inj_left pid)

/-- Witness for the amended claim C1 at a concrete run: pid 42, two
submissions at milliseconds 1000 and 2000. -/
theorem c1_witness : [1000, 2000].Nodup ∧ (runJobIds 42 [1000, 2000]).Nodup :=
  ⟨by decide, c1_distinct_ms_distinct_ids 42 [1000, 2000] (by decide)⟩

/-! Helper lemmas about the background task `_pump`. -/

theorem attemptWrites_none (ws : List String) :
    attemptWrites ws none = (ws.map Event.logWrite, true) := by
  induction ws with
  | nil => rfl
  | cons w ws ih => simp [attemptWrites, ih]

theorem attemptWrites_eq (ws : List String) (k : Nat) :
    attemptWrites ws (some k) = ((ws.take k).map Event.logWrite, decide (ws.length ≤ k)) := by
  induction ws generalizing k with
  | nil => simp [attemptWrites]
  | cons w ws ih =>
    cases k with
    | zero => simp [attemptWrites]
    | succ k => simp [attemptWrites, ih, Nat.succ_le_succ_iff]

theorem pump_none_eq (jn : Option String) (lines : List String) (code : Int) :
    pump jn lines code none = fullTrace jn lines code := by
  simp [pump, attemptWrites_none, fullTrace]

theorem pump_some_eq (jn : Option String) (lines : List String) (code : Int) (k : Nat) :
    pump jn lines code (some k) =
      if lines.length + 2 ≤ k then fullTrace jn lines code
      else if lines.length + 1 ≤ k then
        Event.logOpen :: (startLine jn :: lines).map Event.logWrite ++
          [Event.procWait, Event.logClose]
      else
        Event.logOpen :: ((startLine jn :: lines).take k).map Event.logWrite ++
          [Event.logClose] := by
  have hws : (startLine jn :: lines).length = lines.length + 1 := by simp
  by_cases h1 : lines.length + 1 ≤ k
  · by_cases h2 : lines.length + 2 ≤ k
    · obtain ⟨j, hj⟩ : ∃ j, k - (lines.length + 1) = j + 1 := ⟨k - (lines.length + 2), by omega⟩
      simp [pump, attemptWrites_eq, hws, h1, h2, hj,
        List.take_of_length_le (le_of_eq_of_le hws h1), fullTrace]
    · have h0 : k - (lines.length + 1) = 0 := by omega
      simp [pump, attemptWrites_eq, hws, h1, h2, h0,
        List.take_of_length_le (le_of_eq_of_le hws h1)]
  · have h2 : ¬ lines.length + 2 ≤ k := by omega
    simp [pump, attemptWrites_eq, hws, h1, h2]

theorem countP_status_map_logWrite (l : List String) :
    (l.map Event.logWrite).countP isStatusWrite = 0 := by
  induction l with
  | nil => rfl
  | cons a l ih => simp [List.countP_cons, isStatusWrite, ih]

theorem countP_status_fullTrace (jn : Option String) (lines : List String) (code : Int) :
    (fullTrace jn lines code).countP isStatusWrite = 1 := by
  simp [fullTrace, List.countP_cons, List.countP_append, countP_status_map_logWrite,
    isStatusWrite]

theorem logWritesOf_append (t1 t2 : List Event) :
    logWritesOf (t1 ++ t2) = logWritesOf t1 ++ logWritesOf t2 := by
  induction t1 with
  | nil => rfl
  | cons e tr ih => cases e <;> simp [logWritesOf, ih]

theorem statusWritesOf_append (t1 t2 : List Event) :
    statusWritesOf (t1 ++ t2) = statusWritesOf t1 ++ statusWritesOf t2 := by
  induction t1 with
  | nil => rfl
  | cons e tr ih => cases e <;> simp [statusWritesOf, ih]

theorem logWritesOf_map_logWrite (l : List String) :
    logWritesOf (l.map Event.logWrite) = l := by
  induction l with
  | nil => rfl
  | cons a l ih => simp [logWritesOf, ih]

theorem statusWritesOf_map_logWrite (l : List String) :
    statusWritesOf (l.map Event.logWrite) = [] := by
  induction l with
  | nil => rfl
  | cons a l ih => simp [statusWritesOf, ih]

theorem logWritesOf_fullTrace (jn : Option String) (lines : List String) (code : Int) :
    logWritesOf (fullTrace jn lines code) = startLine jn :: lines ++ [endLine code] := by
  simp [fullTrace, logWritesOf, logWritesOf_append, logWritesOf_map_logWrite]

theorem statusWritesOf_fullTrace (jn : Option String) (lines : List String) (code : Int) :
    statusWritesOf (fullTrace jn lines code) = [statusContent code] := by
  simp [fullTrace, statusWritesOf, statusWritesOf_append, statusWritesOf_map_logWrite]

theorem countP_status_eq_zero_of_all (tr : List Event)
    (h : ∀ e ∈ tr, isStatusWrite e = false) : tr.countP isStatusWrite = 0 :=
  List.countP_eq_zero.mpr (by simpa using h)

theorem all_not_status_mid (jn : Option String) (lines : List String) :
    ∀ e ∈ Event.logOpen :: (startLine jn :: lines).map Event.logWrite ++
        [Event.procWait, Event.logClose], isStatusWrite e = false := by
  intro e he
  rcases List.mem_cons.mp he with rfl | he
  · rfl
  rcases List.mem_append.mp he with he | he
  · rcases List.mem_map.mp he with ⟨b, _, rfl⟩
    rfl
  rcases List.mem_cons.mp he with rfl | he
  · rfl
  rcases List.mem_cons.mp he with rfl | he
  · rfl
  cases he

theorem all_not_status_low (jn : Option String) (lines : List String) (k : Nat) :
    ∀ e ∈ Event.logOpen :: ((startLine jn :: lines).take k).map Event.logWrite ++
        [Event.logClose], isStatusWrite e = false := by
  intro e he
  rcases List.mem_cons.mp he with rfl | he
  · rfl
  rcases List.mem_append.mp he with he | he
  · rcases List.mem_map.mp he with ⟨b, _, rfl⟩
    rfl
  rcases List.mem_cons.mp he with rfl | he
  · rfl
  cases he

theorem mem_statusWritesOf {tr : List Event} {s : String}
    (h : Event.writeStatus s ∈ tr) : s ∈ statusWritesOf tr := by
  induction tr with
  | nil => cases h
  | cons e tr ih =>
    rcases List.mem_cons.mp h with he | h2
    · rw [← he]; simp [statusWritesOf]
    · cases e <;> simp [statusWritesOf, ih h2]

theorem status_mem_fullTrace (jn : Option String) (lines : List String) (code : Int)
    (s : String) (h : Event.writeStatus s ∈ fullTrace jn lines code) :
    s = statusContent code := by
  have h2 := mem_statusWritesOf h
  rw [statusWritesOf_fullTrace] at h2
  simpa using h2

theorem strConcat_append (l1 l2 : List String) :
    strConcat (l1 ++ l2) = strConcat l1 ++ strConcat l2 := by
  induction l1 with
  | nil => simp [strConcat]
  | cons a l ih => simp [strConcat, ih, String.append_assoc]

/-! Claim C2. -/

/-- Claim C2: for every asynchronous job, the status file is written at
most once, and a status write occurs only in the complete exception-free
trace of the background task, in which every log write (header, streamed
lines, terminal marker) and the closing of the log file strictly precede
the status write, which is the final event; hence an observer of the
status file sees a complete log that is never appended to afterwards. -/
theorem c2_status_write_last (jn : Option String) (lines : List String) (code : Int)
    (failAt : Option Nat) :
    (pump jn lines code failAt).countP isStatusWrite ≤ 1 ∧
      ∀ s, Event.writeStatus s ∈ pump jn lines code failAt →
        pump jn lines code failAt = fullTrace jn lines code ∧ s = statusContent code := by
  cases failAt with
  | none =>
    rw [pump_none_eq]
    exact ⟨le_of_eq (countP_status_fullTrace jn lines code),
      fun s hs => ⟨rfl, status_mem_fullTrace jn lines code s hs⟩⟩
  | some k =>
    rw [pump_some_eq]
    split_ifs with h1 h2
    · exact ⟨le_of_eq (countP_status_fullTrace jn lines code),
        fun s hs => ⟨rfl, status_mem_fullTrace jn lines code s hs⟩⟩
    · constructor
      · rw [countP_status_eq_zero_of_all _ (all_not_status_mid jn lines)]
        exact Nat.zero_le 1
      · intro s hs
        have := all_not_status_mid jn lines _ hs
        simp [isStatusWrite] at this
    · constructor
      · rw [countP_status_eq_zero_of_all _ (all_not_status_low jn lines k)]
        exact Nat.zero_le 1
      · intro s hs
        have := all_not_status_low jn lines k _ hs
        simp [isStatusWrite] at this

/-- Witness for claim C2 at a concrete job: name `greet`, one output line,
exit code 0, no I/O failure. -/
theorem c2_witness :
    Event.writeStatus "exit 0" ∈ pump (some "greet") ["hello\n"] 0 none ∧
      pump (some "greet") ["hello\n"] 0 none = fullTrace (some "greet") ["hello\n"] 0 := by
  have hm : Event.writeStatus "exit 0" ∈ pump (some "greet") ["hello\n"] 0 none := by decide
  exact ⟨hm, ((c2_status_write_last (some "greet") ["hello\n"] 0 none).2 "exit 0" hm).1⟩

/-! Claim C3. -/

/-- Claim C3 is refuted on the code: a nonexistent executable does not
produce a reserved sentinel exit code.  The host shell spawned by
`subprocess.Popen(cmd, shell=True, ...)` absorbs the failure and exits
with the conventional code 127, so the job's terminal record is
`exit 127` — exactly the record of any ordinary process that exits 127,
inside the normal 0-255 exit-code range and not a reserved sentinel. -/
theorem c3_counterexample :
    statusWritesOf (pump none [] shNotFoundExit none) = [statusContent 127] ∧
      statusContent shNotFoundExit = statusContent 127 ∧
      isReservedSentinel shNotFoundExit = false ∧
      (0 : Int) ≤ shNotFoundExit ∧ shNotFoundExit ≤ 255 := by
  refine ⟨?_, rfl, by decide, by decide, by decide⟩
  rw [pump_none_eq, statusWritesOf_fullTrace]
  rfl

/-- Claim C3 (amended): a spawn failure of the command (nonexistent
executable) is absorbed by the host shell, so `shell` itself does not
raise: the caller still receives the job id, and the background task runs
to completion, recording a terminal status with the shell's conventional
exit code 127 — a value inside the normal 0-255 range, not a reserved
sentinel distinguishable from ordinary process exit codes. -/
theorem c3_spawn_failure_terminal_normal_code (cmd : String) (jn : Option String)
    (lines : List String) (t p : Nat) :
    (shell cmd true jn t p shNotFoundExit).1 = ShellResult.jobid (jobId t p) ∧
      (pump jn lines shNotFoundExit none).getLast? =
        some (Event.writeStatus (statusContent shNotFoundExit)) ∧
      isReservedSentinel shNotFoundExit = false ∧
      (0 : Int) ≤ shNotFoundExit ∧ shNotFoundExit ≤ 255 := by
  refine ⟨by simp [shell], ?_, by decide, by decide, by decide⟩
  rw [pump_none_eq]
  rw [show fullTrace jn lines shNotFoundExit =
    (Event.logOpen :: (startLine jn :: lines).map Event.logWrite ++
      [Event.procWait, Event.logWrite (endLine shNotFoundExit), Event.logClose]) ++
      [Event.writeStatus (statusContent shNotFoundExit)] from by simp [fullTrace]]
  exact List.getLast?_concat _

/-! Claim C4. -/

/-- Claim C4 is refuted on the code: an I/O failure on the second log
write (the first streamed line) kills the background task before the
status write — `_pump` has no exception handler — so the status file is
never written, not even attempted. -/
theorem c4_counterexample :
    (pump none ["x\n"] 0 (some 1)).countP isStatusWrite = 0 ∧
      Event.logClose ∈ pump none ["x\n"] 0 (some 1) := by decide

/-- Claim C4 (amended): an I/O failure raised while writing to the log
file DOES prevent the terminal status write: the exception propagates out
of `_pump` (whose `with` block still closes the log file) and kills the
daemon thread, so the status file is written exactly when every log write
(header, `lines.length` streamed lines, terminal marker) succeeded, and a
failing log write leaves the job permanently without a status file. -/
theorem c4_log_failure_skips_status (jn : Option String) (lines : List String)
    (code : Int) (k : Nat) :
    (pump jn lines code (some k)).countP isStatusWrite =
        (if lines.length + 2 ≤ k then 1 else 0) ∧
      Event.logClose ∈ pump jn lines code (some k) := by
  rw [pump_some_eq]
  split_ifs with h1 h2
  · refine ⟨countP_status_fullTrace jn lines code, ?_⟩
    simp [fullTrace]
  · exact ⟨countP_status_eq_zero_of_all _ (all_not_status_mid jn lines), by simp⟩
  · exact ⟨countP_status_eq_zero_of_all _ (all_not_status_low jn lines k), by simp⟩

/-! Claim C5. -/

/-- Claim C5: the synchronous path (`background = false`) spawns the
process, blocks on it (`procWait` is in the caller's own trace), returns
exactly the process's exit code, and performs no job-store operation: no
directory creation and no job-file write of any kind. -/
theorem c5_sync_exit_code_no_job_files (cmd : String) (jn : Option String)
    (t p : Nat) (code : Int) :
    (shell cmd false jn t p code).1 = ShellResult.code code ∧
      Event.procWait ∈ (shell cmd false jn t p code).2 ∧
      (shell cmd false jn t p code).2.countP isJobFileOp = 0 := by
  refine ⟨rfl, by simp [shell], ?_⟩
  simp [shell, List.countP_cons, isJobFileOp]

theorem logContentOf_fullTrace (jn : Option String) (lines : List String) (code : Int) :
    logContentOf (fullTrace jn lines code) =
      startLine jn ++ strConcat lines ++ endLine code := by
  rw [logContentOf, logWritesOf_fullTrace]
  simp [strConcat, strConcat_append, String.append_empty, String.append_assoc]

/-! Claim C6. -/

/-- Claim C6: an asynchronous submission returns the job id to the caller
at once — the caller's own trace never waits on the process — and once the
background task has completed without I/O failure, `name.txt` holds the
supplied label (the command string when none is supplied), `log.txt`
holds the merged stdout and stderr of the process (framed by the start
header and the terminal marker), and `status.txt` holds exactly
`exit <code>`. -/
theorem c6_async_artifacts (cmd : String) (jn : Option String) (lines : List String)
    (code : Int) (t p : Nat) :
    (shell cmd true jn t p code).1 = ShellResult.jobid (jobId t p) ∧
      Event.procWait ∉ (shell cmd true jn t p code).2 ∧
      Event.writeName (jobId t p) (nameContent jn cmd) ∈ (shell cmd true jn t p code).2 ∧
      (jn = none → nameContent jn cmd = cmd) ∧
      (∀ nm, jn = some nm → nm ≠ "" → nameContent jn cmd = nm) ∧
      logContentOf (pump jn lines code none) =
        startLine jn ++ strConcat lines ++ endLine code ∧
      statusWritesOf (pump jn lines code none) = [statusContent code] := by
  refine ⟨rfl, by simp [shell], by simp [shell], ?_, ?_, ?_, ?_⟩
  · rintro rfl
    rfl
  · rintro nm rfl hne
    simp [nameContent, hne]
  · rw [pump_none_eq, logContentOf_fullTrace]
  · rw [pump_none_eq, statusWritesOf_fullTrace]

/-- Witness for claim C6 at the spec's own example: `echo hello` named
`greet`, producing the line `hello` and exiting 0. -/
theorem c6_witness :
    (shell "echo hello" true (some "greet") 1000 7 0).1 = ShellResult.jobid (jobId 1000 7) ∧
      nameContent (some "greet") "echo hello" = "greet" ∧
      logContentOf (pump (some "greet") ["hello\n"] 0 none) =
        startLine (some "greet") ++ strConcat ["hello\n"] ++ endLine 0 ∧
      statusWritesOf (pump (some "greet") ["hello\n"] 0 none) = [statusContent 0] := by
  have h := c6_async_artifacts "echo hello" (some "greet") ["hello\n"] 0 1000 7
  exact ⟨h.1, h.2.2.2.2.1 "greet" rfl (by decide), h.2.2.2.2.2.1, h.2.2.2.2.2.2⟩

/-! Claim C7. -/

/-- Claim C7 is refuted on the code: with the environment override set to
a non-creatable path while the preferred location `/mnt/data/cmgmt` is
creatable, the first candidate that can be created is `/mnt/data/cmgmt`,
yet `_pick_root` does not return it — the override's `mkdir` runs outside
any `try`, so its failure propagates instead of falling through to the
next candidate. -/
theorem c7_counterexample :
    specRootChoice (some "/locked") "/home/op" (fun s => s != "/locked") =
        some "/mnt/data/cmgmt" ∧
      pickRoot (some "/locked") "/home/op" (fun s => s != "/locked") =
        Except.error "/locked" :=
  ⟨rfl, rfl⟩

/-- Claim C7 (amended): when the environment override is set, it alone is
attempted — it is returned if it can be created and otherwise the failure
propagates as a fatal error without trying any further candidate; without
an override, the candidates `/mnt/data/cmgmt`, `/tmp/cmgmt` and the
`cmgmt_data` fallback under the current working directory are tried in
this order and the first that can be created is returned (fatal error if
the fallback also fails); the module initialization then derives the jobs
directory as `<root>/jobs` and succeeds only once its creation succeeded
as well. -/
theorem c7_root_selection (cwd : String) (f : String → Bool) :
    (∀ e, pickRoot (some e) cwd f = if f e then Except.ok e else Except.error e) ∧
      (pickRoot none cwd f =
        match specRootChoice none cwd f with
        | some r => Except.ok r
        | none => Except.error (cwd ++ "/cmgmt_data")) ∧
      (∀ env root jobs, moduleInit env cwd f = Except.ok (root, jobs) →
        jobs = root ++ "/jobs" ∧ f jobs = true ∧ pickRoot env cwd f = Except.ok root) := by
  refine ⟨fun e => rfl, ?_, ?_⟩
  · by_cases hm : f "/mnt/data/cmgmt" <;> by_cases ht : f "/tmp/cmgmt" <;>
      by_cases hf : f (cwd ++ "/cmgmt_data") <;>
      simp [pickRoot, specRootChoice, claimedRootOrder, List.find?, hm, ht, hf]
  · intro env root jobs h
    cases hp : pickRoot env cwd f with
    | error e => simp [moduleInit, hp] at h
    | ok r =>
      simp only [moduleInit, hp] at h
      by_cases hj : f (r ++ "/jobs")
      · simp only [hj, if_true, Except.ok.injEq, Prod.mk.injEq] at h
        obtain ⟨rfl, rfl⟩ := h
        exact ⟨rfl, hj, rfl⟩
      · simp [hj] at h

/-- Witness for the amended claim C7: override `/e` with every creation
succeeding resolves to root `/e` and jobs directory `/e/jobs`. -/
theorem c7_witness :
    pickRoot (some "/e") "/w" (fun _ => true) = Except.ok "/e" ∧
      ("/e/jobs" = "/e" ++ "/jobs" ∧ (fun _ : String => true) "/e/jobs" = true ∧
        pickRoot (some "/e") "/w" (fun _ => true) = Except.ok "/e") := by
  have h := c7_root_selection "/w" (fun _ => true)
  exact ⟨by simpa using h.1 "/e", h.2.2 (some "/e") "/e" "/e/jobs" rfl⟩

/-! Claim C8. -/

/-- Claim C8: on the asynchronous path the job directory is created and
the name file written strictly before the process is spawned, which in
turn precedes the start of the background task, and the value returned to
the caller is exactly the id of that already-persisted job record. -/
theorem c8_record_exists_before_spawn (cmd : String) (jn : Option String)
    (t p : Nat) (code : Int) :
    ∃ pre post,
      (shell cmd true jn t p code).1 = ShellResult.jobid (jobId t p) ∧
      (shell cmd true jn t p code).2 = pre ++ Event.spawn cmd :: post ∧
      Event.mkdirJobDir (jobId t p) ∈ pre ∧
      Event.writeName (jobId t p) (nameContent jn cmd) ∈ pre ∧
      Event.startThread ∈ post := by
  exact ⟨[Event.mkdirJobDir (jobId t p), Event.writeName (jobId t p) (nameContent jn cmd)],
    [Event.startThread], rfl, by simp [shell], by simp, by simp, by simp⟩

/-! Claim C9. -/

/-- Claim C9: an empty-string job name is falsy in Python, so `job_name or
cmd` persists the command string to `name.txt`, and the caller-side
behaviour of `shell` with the empty-string name is identical to passing no
name at all. -/
theorem c9_empty_name_as_no_name (cmd : String) (t p : Nat) (code : Int) :
    nameContent (some "") cmd = cmd ∧
      shell cmd true (some "") t p code = shell cmd true none t p code := by
  constructor
  · rfl
  · simp [shell, nameContent]

/-! Claim C10. -/

/-- Claim C10: the first line of `log.txt` is the header built by
interpolating the RAW optional name argument, so with no name supplied
the log starts with the literal line `== START None` even though
`name.txt` receives the command string. -/
theorem c10_log_header_from_raw_name (lines : List String) (code : Int) (cmd : String) :
    (logWritesOf (pump none lines code none)).head? = some "== START None\n" ∧
      nameContent none cmd = cmd ∧
      ∀ jn, (logWritesOf (pump jn lines code none)).head? = some (startLine jn) := by
  refine ⟨?_, rfl, fun jn => ?_⟩
  · rw [pump_none_eq, logWritesOf_fullTrace]
    rfl
  · rw [pump_none_eq, logWritesOf_fullTrace]
    rfl

end CMgmt
